import Mathlib

/-!
# Verification of the OSM points-of-interest adapter

Shallow embedding of `OsmPointsOfInterestAdapter` (the write-through POI
synchronization and tag-reconciliation engine): the tag model, the tag
reconciler (`SetTagByLanguage`, `GetLanguage`, `HasHebrewCharacters`,
`UpdateTagsByIcon`, `RemoveEmptyTags`) and the `AddPointOfInterest` /
`UpdatePointOfInterest` orchestration flows, with gateway calls modelled
by an environment of predetermined call outcomes and an event trace.

The tag collection follows the semantics of the `TagsCollection` used by
the source (a list of key/value pairs): `Add` appends a pair without
checking for an existing key, the indexer's setter replaces the value of
the first tag carrying the key (appending when the key is absent), and
`RemoveKeyValue` removes the first pair equal to the given one.  C#
exceptions are modelled by `Except`: a failing gateway call short-circuits
the rest of the operation.
-/

namespace OsmPoi

/-- A key/value tag, as stored on an OSM element. -/
structure Tag where
  key : String
  value : String
deriving DecidableEq, Repr

/-- `Add` of the tag collection: appends the pair, never deduplicates. -/
def addTag (tags : List Tag) (t : Tag) : List Tag :=
  tags ++ [t]

/-- The tag-collection indexer's setter: replaces the value of the first
tag whose key matches, appending a fresh tag when the key is absent. -/
def addOrReplace : List Tag → Tag → List Tag
  | [], t => [t]
  | t' :: rest, t =>
    if t'.key = t.key then t :: rest else t' :: addOrReplace rest t

/-- `ContainsKey` of the tag collection. -/
def containsKey (tags : List Tag) (k : String) : Bool :=
  tags.any fun t => t.key == k

/-- First value stored under a key (the tag collection's lookup). -/
def getTag : List Tag → String → Option String
  | [], _ => none
  | t :: rest, k => if t.key = k then some t.value else getTag rest k

/-- `RemoveKeyValue`: removes the first pair equal to the given tag. -/
def removeKeyValue : List Tag → Tag → List Tag
  | [], _ => []
  | t' :: rest, t => if t' = t then rest else t' :: removeKeyValue rest t

/-- The whitespace test used by `string.IsNullOrWhiteSpace` (`Char.IsWhiteSpace`):
space separators, the control whitespace characters and NEL. -/
def isWhitespaceChar (c : Char) : Bool :=
  c == ' ' || c == '\t' || c == '\n' || c.toNat == 0xB || c.toNat == 0xC ||
  c == '\r' || c.toNat == 0x85 || c.toNat == 0xA0 || c.toNat == 0x1680 ||
  (0x2000 ≤ c.toNat && c.toNat ≤ 0x200A) || c.toNat == 0x2028 ||
  c.toNat == 0x2029 || c.toNat == 0x202F || c.toNat == 0x205F ||
  c.toNat == 0x3000

/-- `string.IsNullOrWhiteSpace`: empty or every character whitespace
(the null case does not arise in the embedding). -/
def isNullOrWhiteSpaceStr (s : String) : Bool :=
  s.data.all isWhitespaceChar

/-- A Latin letter, the character class `[a-zA-Z]` of the source's regex. -/
def isLatinLetter (c : Char) : Bool :=
  ('a' ≤ c && c ≤ 'z') || ('A' ≤ c && c ≤ 'Z')

/-- A character of the Hebrew block `[֑-״]` of the source's regex. -/
def isHebrewChar (c : Char) : Bool :=
  0x591 ≤ c.toNat && c.toNat ≤ 0x5F4

/-- Matcher for the anchored regex `^[^a-zA-Z]*[֑-״]`: scanning
from the start, succeed at the first Hebrew-block character, fail at the
first Latin letter. -/
def hebrewScan : List Char → Bool
  | [] => false
  | c :: rest =>
    if isHebrewChar c then true
    else if isLatinLetter c then false
    else hebrewScan rest

/-- `HasHebrewCharacters` of the adapter: `Regex.Match(words, "^[^a-zA-Z]*[֑-״]").Success`. -/
def HasHebrewCharacters (words : String) : Bool :=
  hebrewScan words.data

/-- `GetLanguage` of the adapter: keep the requested language for
empty/whitespace values, otherwise infer "he" or "en" from the script. -/
def GetLanguage (value language : String) : String :=
  if isNullOrWhiteSpaceStr value then language
  else if HasHebrewCharacters value = false then "en" else "he"

/-- The adapter's configuration (`ConfigurationData`), reduced to the
field the tag reconciler reads. -/
structure ConfigurationData where
  DefaultLanguage : String
deriving DecidableEq, Repr

/-- The second half of `SetTagByLanguage`: `tags[k] = v` when the key is
present, `tags.Add(new Tag(k, v))` otherwise. -/
def setTagRaw (tags : List Tag) (k v : String) : List Tag :=
  if containsKey tags k then addOrReplace tags ⟨k, v⟩ else addTag tags ⟨k, v⟩

/-- `SetTagByLanguage` of the adapter.  Mirrors the source's control flow:
when the resolved language is the default and the base key exists, the
method replaces the base key and returns early (the language-qualified key
is not touched); when the base key is absent it appends the base key and
falls through to the language-qualified write. -/
def SetTagByLanguage (options : ConfigurationData) (tags : List Tag)
    (key value language : String) : List Tag :=
  let language := GetLanguage value language
  if language = options.DefaultLanguage then
    if containsKey tags key then
      addOrReplace tags ⟨key, value⟩
    else
      setTagRaw (addTag tags ⟨key, value⟩) (key ++ ":" ++ language) value
  else
    setTagRaw tags (key ++ ":" ++ language) value

/-- `UpdateTagsByIcon` of the adapter: the icon-to-vocabulary switch.
Every branch is a bare `tags.Add`, i.e. an append. -/
def UpdateTagsByIcon (tags : List Tag) (icon : String) : List Tag :=
  if icon = "icon-viewpoint" then addTag tags ⟨"tourism", "viewpoint"⟩
  else if icon = "icon-tint" then addTag tags ⟨"natural", "spring"⟩
  else if icon = "icon-ruins" then addTag tags ⟨"historic", "ruins"⟩
  else if icon = "icon-picnic" then addTag tags ⟨"tourism", "picnic_site"⟩
  else if icon = "icon-campsite" then addTag tags ⟨"tourism", "camp_site"⟩
  else if icon = "icon-tree" then addTag tags ⟨"natural", "tree"⟩
  else if icon = "icon-cave" then addTag tags ⟨"natural", "cave_entrance"⟩
  else if icon = "icon-star" then addTag tags ⟨"tourism", "attraction"⟩
  else if icon = "icon-peak" then addTag tags ⟨"natural", "peak"⟩
  else tags

/-- One backwards pass of `RemoveEmptyTags`: `for (i = Count - 1; i >= 0; i--)
if IsNullOrWhiteSpace(ElementAt(i).Value) RemoveKeyValue(ElementAt(i))`.
The counter is the loop index plus one; the list is the mutating collection. -/
def removeEmptyLoop : List Tag → Nat → List Tag
  | tags, 0 => tags
  | tags, i + 1 =>
    match tags.get? i with
    | some t =>
      if isNullOrWhiteSpaceStr t.value then
        removeEmptyLoop (removeKeyValue tags t) i
      else
        removeEmptyLoop tags i
    | none => removeEmptyLoop tags i

/-- `RemoveEmptyTags` of the adapter. -/
def RemoveEmptyTags (tags : List Tag) : List Tag :=
  removeEmptyLoop tags tags.length

namespace FeatureAttributes

/-- Modelled from the spec: the `FeatureAttributes.NAME` tag-key constant of
`IsraelHiking.Common` (not under `src/`); the spec names the name tag (§3, §4.4). -/
def NAME : String := "name"

/-- Modelled from the spec: the description tag key of `IsraelHiking.Common`. -/
def DESCRIPTION : String := "description"

/-- Modelled from the spec: the image tag key of `IsraelHiking.Common`. -/
def IMAGE_URL : String := "image"

/-- Modelled from the spec: the website tag key of `IsraelHiking.Common`. -/
def WEBSITE : String := "website"

end FeatureAttributes

/-- A latitude/longitude pair (`LatLng` of the POI data model). -/
structure LatLng where
  lat : Rat
  lng : Rat
deriving DecidableEq, Repr

/-- `PointOfInterestExtended`, reduced to the fields the create/update
flows read. -/
structure PointOfInterestExtended where
  Id : String
  Title : String
  Description : String
  ImageUrl : String
  Url : String
  Icon : String
  Location : LatLng
deriving DecidableEq, Repr

/-- The OSM node built by `AddPointOfInterest`. -/
structure Node where
  Latitude : Rat
  Longitude : Rat
  Tags : List Tag
deriving DecidableEq, Repr

/-- Runtime geometry classification of the search-index feature
(`Point` / `LineString` / `Polygon` / anything else). -/
inductive GeometryKind where
  | point
  | lineString
  | polygon
  | other
deriving DecidableEq, Repr

/-- The search-index feature, reduced to what `UpdatePointOfInterest`
reads: its geometry kind and the stored icon attribute. -/
structure Feature where
  geometry : GeometryKind
  icon : String
deriving DecidableEq, Repr

/-- One observable call made by a flow to one of the two gateways. -/
inductive Event where
  | createChangeset (comment : String)
  | createElement (changesetId : String) (node : Node)
  | updateElement (changesetId : String) (tags : List Tag)
  | closeChangeset (changesetId : String)
  | getPointOfInterestById (id : String)
  | getNode (id : String)
  | getCompleteWay (id : String)
  | getCompleteRelation (id : String)
  | updateNamesData (tags : List Tag)
deriving DecidableEq, Repr

/-- Errors thrown by gateway calls (C# exceptions), carried as messages. -/
abbrev Err := String

/-- Predetermined outcomes for every gateway call `AddPointOfInterest`
can make, one field per call site; a `.error` models the call throwing. -/
structure CreateGatewayEnv where
  createChangesetResult : Except Err String
  createElementResult : Except Err String
  closeChangesetResult : Except Err Unit
  preprocessYieldsFeature : Bool

/-- Predetermined outcomes for every gateway call `UpdatePointOfInterest`
can make.  `fetchElementResult` is the tag set of the element returned by
whichever of `GetNode` / `GetCompleteWay` / `GetCompleteRelation` runs. -/
structure UpdateGatewayEnv where
  getPointOfInterestByIdResult : Except Err Feature
  fetchElementResult : Except Err (List Tag)
  createChangesetResult : Except Err String
  updateElementResult : Except Err Unit
  closeChangesetResult : Except Err Unit
  preprocessYieldsFeature : Bool

/-- The changeset comment of `AddPointOfInterest`. -/
def createComment : String := "Add POI interface from IHM site."

/-- The changeset comment of `UpdatePointOfInterest`. -/
def updateComment : String := "Update POI interface from IHM site."

/-- The tag set of the node built by `AddPointOfInterest` before the
final `RemoveEmptyTags`: image/website initializer entries, then the two
localized writes, then the icon vocabulary. -/
def createTagsBeforeStrip (options : ConfigurationData)
    (poi : PointOfInterestExtended) (language : String) : List Tag :=
  let tags := addTag (addTag [] ⟨FeatureAttributes.IMAGE_URL, poi.ImageUrl⟩)
    ⟨FeatureAttributes.WEBSITE, poi.Url⟩
  let tags := SetTagByLanguage options tags FeatureAttributes.NAME poi.Title language
  let tags := SetTagByLanguage options tags FeatureAttributes.DESCRIPTION poi.Description language
  UpdateTagsByIcon tags poi.Icon

/-- The node handed to `CreateElement` by `AddPointOfInterest`. -/
def buildCreateNode (options : ConfigurationData)
    (poi : PointOfInterestExtended) (language : String) : Node :=
  ⟨poi.Location.lat, poi.Location.lng,
    RemoveEmptyTags (createTagsBeforeStrip options poi language)⟩

/-- `AddPointOfInterest`: open changeset, build the node, create the
element, parse its id, close the changeset, then re-sync the search index
(the upsert happens only when preprocessing derives a feature).  Returns
the C# result (normal return or propagated exception) and the list of
gateway calls that were invoked, in order. -/
def AddPointOfInterest (env : CreateGatewayEnv) (options : ConfigurationData)
    (poi : PointOfInterestExtended) (language : String) :
    Except Err Unit × List Event :=
  match env.createChangesetResult with
  | .error e => (.error e, [.createChangeset createComment])
  | .ok changesetId =>
    let node := buildCreateNode options poi language
    match env.createElementResult with
    | .error e =>
      (.error e, [.createChangeset createComment, .createElement changesetId node])
    | .ok idStr =>
      match idStr.toInt? with
      | none =>
        (.error "FormatException",
         [.createChangeset createComment, .createElement changesetId node])
      | some _ =>
        match env.closeChangesetResult with
        | .error e =>
          (.error e,
           [.createChangeset createComment, .createElement changesetId node,
            .closeChangeset changesetId])
        | .ok _ =>
          if env.preprocessYieldsFeature then
            (.ok (),
             [.createChangeset createComment, .createElement changesetId node,
              .closeChangeset changesetId, .updateNamesData node.Tags])
          else
            (.ok (),
             [.createChangeset createComment, .createElement changesetId node,
              .closeChangeset changesetId])

/-- The element fetch chosen from the feature's geometry: `Point` uses
`GetNode`, `LineString`/`Polygon` use `GetCompleteWay`, anything else
uses `GetCompleteRelation`. -/
def fetchEvent (geometry : GeometryKind) (id : String) : Event :=
  match geometry with
  | .point => .getNode id
  | .lineString => .getCompleteWay id
  | .polygon => .getCompleteWay id
  | .other => .getCompleteRelation id

/-- The fetched element's tags after the four writes of
`UpdatePointOfInterest` that run before the icon step.  The source's
first `SetTagByLanguage` call passes `pointOfInterest.Description` for
the NAME key (line 118 of the adapter), not the title. -/
def updateTagsBeforeIcon (options : ConfigurationData)
    (poi : PointOfInterestExtended) (language : String)
    (elementTags : List Tag) : List Tag :=
  let tags := SetTagByLanguage options elementTags FeatureAttributes.NAME poi.Description language
  let tags := SetTagByLanguage options tags FeatureAttributes.DESCRIPTION poi.Description language
  let tags := addOrReplace tags ⟨FeatureAttributes.IMAGE_URL, poi.ImageUrl⟩
  addOrReplace tags ⟨FeatureAttributes.WEBSITE, poi.Url⟩

/-- The element's tags after the conditional icon-vocabulary step:
applied only when the submitted icon differs from the stored one. -/
def updateTagsBeforeStrip (options : ConfigurationData)
    (poi : PointOfInterestExtended) (language : String)
    (elementTags : List Tag) (feature : Feature) : List Tag :=
  let tags := updateTagsBeforeIcon options poi language elementTags
  if poi.Icon ≠ feature.icon then UpdateTagsByIcon tags poi.Icon else tags

/-- The tag set handed to `UpdateElement` by `UpdatePointOfInterest`. -/
def buildUpdateTags (options : ConfigurationData)
    (poi : PointOfInterestExtended) (language : String)
    (elementTags : List Tag) (feature : Feature) : List Tag :=
  RemoveEmptyTags (updateTagsBeforeStrip options poi language elementTags feature)

/-- `UpdatePointOfInterest`: look the feature up in the search index,
fetch the element by geometry kind, rewrite its tags, then open a
changeset, update the element, close, and re-sync the search index. -/
def UpdatePointOfInterest (env : UpdateGatewayEnv) (options : ConfigurationData)
    (poi : PointOfInterestExtended) (language : String) :
    Except Err Unit × List Event :=
  match env.getPointOfInterestByIdResult with
  | .error e => (.error e, [.getPointOfInterestById poi.Id])
  | .ok feature =>
    let fetched := fetchEvent feature.geometry poi.Id
    match env.fetchElementResult with
    | .error e => (.error e, [.getPointOfInterestById poi.Id, fetched])
    | .ok elementTags =>
      let newTags := buildUpdateTags options poi language elementTags feature
      match env.createChangesetResult with
      | .error e =>
        (.error e,
         [.getPointOfInterestById poi.Id, fetched, .createChangeset updateComment])
      | .ok changesetId =>
        match env.updateElementResult with
        | .error e =>
          (.error e,
           [.getPointOfInterestById poi.Id, fetched, .createChangeset updateComment,
            .updateElement changesetId newTags])
        | .ok _ =>
          match env.closeChangesetResult with
          | .error e =>
            (.error e,
             [.getPointOfInterestById poi.Id, fetched, .createChangeset updateComment,
              .updateElement changesetId newTags, .closeChangeset changesetId])
          | .ok _ =>
            if env.preprocessYieldsFeature then
              (.ok (),
               [.getPointOfInterestById poi.Id, fetched, .createChangeset updateComment,
                .updateElement changesetId newTags, .closeChangeset changesetId,
                .updateNamesData newTags])
            else
              (.ok (),
               [.getPointOfInterestById poi.Id, fetched, .createChangeset updateComment,
                .updateElement changesetId newTags, .closeChangeset changesetId])

/-- Whether a trace contains a `closeChangeset` call. -/
def hasCloseEvent : List Event → Bool
  | [] => false
  | .closeChangeset _ :: _ => true
  | _ :: rest => hasCloseEvent rest

/-- Whether a trace contains an `updateNamesData` (search-index upsert) call. -/
def hasUpsertEvent : List Event → Bool
  | [] => false
  | .updateNamesData _ :: _ => true
  | _ :: rest => hasUpsertEvent rest

/-- A tag set has at most one tag per distinct key string. -/
def uniqueKeys (tags : List Tag) : Prop :=
  (tags.map fun t => t.key).Nodup

instance decidableUniqueKeys (tags : List Tag) : Decidable (uniqueKeys tags) :=
  List.nodupDecidable (tags.map fun t : Tag => t.key)

/-- Declarative reading of the anchored pattern `^[^a-zA-Z]*[֑-״]`:
some Hebrew-block character occurs, and every character before it is not
a Latin letter. -/
def anchoredHebrew (s : List Char) : Prop :=
  ∃ pre c post, s = pre ++ c :: post ∧ isHebrewChar c = true ∧
    ∀ d ∈ pre, isLatinLetter d = false

/-! ## Lemmas about the tag collection -/

theorem containsKey_eq_false_iff (tags : List Tag) (k : String) :
    containsKey tags k = false ↔ ∀ t ∈ tags, t.key ≠ k := by
  simp [containsKey]

theorem getTag_eq_none (tags : List Tag) (k : String)
    (h : containsKey tags k = false) : getTag tags k = none := by
  induction tags with
  | nil => rfl
  | cons t rest ih =>
    rw [containsKey_eq_false_iff] at h
    have h1 : t.key ≠ k := h t (by simp)
    simp only [getTag, if_neg h1]
    exact ih ((containsKey_eq_false_iff rest k).mpr fun t' ht' => h t' (by simp [ht']))

theorem getTag_append_of_none (l r : List Tag) (k : String)
    (h : getTag l k = none) : getTag (l ++ r) k = getTag r k := by
  induction l with
  | nil => rfl
  | cons t rest ih =>
    by_cases ht : t.key = k
    · simp [getTag, ht] at h
    · simp only [getTag, if_neg ht] at h ⊢
      exact ih h

theorem getTag_append_of_some (l r : List Tag) (k : String) (v : String)
    (h : getTag l k = some v) : getTag (l ++ r) k = some v := by
  induction l with
  | nil => simp [getTag] at h
  | cons t rest ih =>
    by_cases ht : t.key = k
    · simp_all [getTag]
    · simp only [getTag, if_neg ht] at h ⊢
      exact ih h

theorem getTag_addOrReplace_self (tags : List Tag) (t : Tag) :
    getTag (addOrReplace tags t) t.key = some t.value := by
  induction tags with
  | nil => simp [addOrReplace, getTag]
  | cons t' rest ih =>
    by_cases h : t'.key = t.key
    · simp [addOrReplace, h, getTag]
    · simp [addOrReplace, h, getTag, ih]

theorem getTag_addOrReplace_ne (tags : List Tag) (t : Tag) (k : String)
    (h : k ≠ t.key) : getTag (addOrReplace tags t) k = getTag tags k := by
  induction tags with
  | nil => simp [addOrReplace, getTag, Ne.symm h]
  | cons t' rest ih =>
    by_cases h2 : t'.key = t.key
    · simp [addOrReplace, h2, getTag, Ne.symm h]
    · simp [addOrReplace, h2, getTag, ih]

theorem getTag_setTagRaw_self (tags : List Tag) (k v : String) :
    getTag (setTagRaw tags k v) k = some v := by
  unfold setTagRaw
  split
  · exact getTag_addOrReplace_self tags ⟨k, v⟩
  · rename_i h
    rw [Bool.not_eq_true] at h
    rw [addTag, getTag_append_of_none tags _ k (getTag_eq_none tags k h)]
    simp [getTag]

theorem getTag_setTagRaw_ne (tags : List Tag) (k v k' : String)
    (h : k' ≠ k) : getTag (setTagRaw tags k v) k' = getTag tags k' := by
  unfold setTagRaw
  split
  · exact getTag_addOrReplace_ne tags ⟨k, v⟩ k' h
  · cases hv : getTag tags k' with
    | none =>
      rw [addTag, getTag_append_of_none tags _ k' hv]
      simp [getTag, Ne.symm h]
    | some v' => rw [addTag, getTag_append_of_some tags _ k' v' hv]

theorem key_ne_keyLang (key lang : String) : key ≠ key ++ ":" ++ lang := by
  intro h
  have h2 := congrArg String.length h
  rw [String.length_append, String.length_append] at h2
  have h3 : (":" : String).length = 1 := rfl
  omega

theorem mem_addOrReplace (tags : List Tag) (t x : Tag)
    (h : x ∈ addOrReplace tags t) : x = t ∨ x ∈ tags := by
  induction tags with
  | nil => simp [addOrReplace] at h; exact Or.inl h
  | cons t' rest ih =>
    by_cases h2 : t'.key = t.key
    · simp only [addOrReplace, if_pos h2, List.mem_cons] at h
      rcases h with h | h
      · exact Or.inl h
      · exact Or.inr (by simp [h])
    · simp only [addOrReplace, if_neg h2, List.mem_cons] at h
      rcases h with h | h
      · exact Or.inr (by simp [h])
      · rcases ih h with h | h
        · exact Or.inl h
        · exact Or.inr (by simp [h])

theorem mem_setTagRaw (tags : List Tag) (k v : String) (x : Tag)
    (h : x ∈ setTagRaw tags k v) : x = ⟨k, v⟩ ∨ x ∈ tags := by
  unfold setTagRaw at h
  split at h
  · exact mem_addOrReplace tags ⟨k, v⟩ x h
  · rw [addTag] at h
    simp only [List.mem_append, List.mem_singleton] at h
    tauto

theorem SetTagByLanguage_eq_replace (options : ConfigurationData) (tags : List Tag)
    (key value language : String)
    (h1 : GetLanguage value language = options.DefaultLanguage)
    (h2 : containsKey tags key = true) :
    SetTagByLanguage options tags key value language = addOrReplace tags ⟨key, value⟩ := by
  simp only [SetTagByLanguage]
  rw [if_pos h1, if_pos h2]

theorem SetTagByLanguage_eq_addBoth (options : ConfigurationData) (tags : List Tag)
    (key value language : String)
    (h1 : GetLanguage value language = options.DefaultLanguage)
    (h2 : containsKey tags key = false) :
    SetTagByLanguage options tags key value language
      = setTagRaw (addTag tags ⟨key, value⟩) (key ++ ":" ++ GetLanguage value language) value := by
  simp only [SetTagByLanguage]
  rw [if_pos h1, if_neg (by rw [h2]; simp)]

theorem SetTagByLanguage_eq_qualified (options : ConfigurationData) (tags : List Tag)
    (key value language : String)
    (h1 : GetLanguage value language ≠ options.DefaultLanguage) :
    SetTagByLanguage options tags key value language
      = setTagRaw tags (key ++ ":" ++ GetLanguage value language) value := by
  simp only [SetTagByLanguage]
  rw [if_neg h1]

theorem mem_SetTagByLanguage (options : ConfigurationData) (tags : List Tag)
    (key value language : String) (x : Tag)
    (h : x ∈ SetTagByLanguage options tags key value language) :
    x ∈ tags ∨ x.key = key ∨ x.key = key ++ ":" ++ GetLanguage value language := by
  by_cases h1 : GetLanguage value language = options.DefaultLanguage
  · cases h2 : containsKey tags key with
    | true =>
      rw [SetTagByLanguage_eq_replace options tags key value language h1 h2] at h
      rcases mem_addOrReplace tags ⟨key, value⟩ x h with h | h
      · exact Or.inr (Or.inl (by simp [h]))
      · exact Or.inl h
    | false =>
      rw [SetTagByLanguage_eq_addBoth options tags key value language h1 h2] at h
      rcases mem_setTagRaw _ _ _ x h with h | h
      · exact Or.inr (Or.inr (by simp [h]))
      · rw [addTag] at h
        simp only [List.mem_append, List.mem_singleton] at h
        rcases h with h | h
        · exact Or.inl h
        · exact Or.inr (Or.inl (by simp [h]))
  · rw [SetTagByLanguage_eq_qualified options tags key value language h1] at h
    rcases mem_setTagRaw _ _ _ x h with h | h
    · exact Or.inr (Or.inr (by simp [h]))
    · exact Or.inl h

/-! ## Lemmas about `RemoveEmptyTags` -/

theorem removeKeyValue_sublist (tags : List Tag) (t : Tag) :
    List.Sublist (removeKeyValue tags t) tags := by
  induction tags with
  | nil => simp [removeKeyValue]
  | cons t' rest ih =>
    by_cases h : t' = t
    · simp only [removeKeyValue, if_pos h]
      exact List.sublist_cons_self t' rest
    · simp only [removeKeyValue, if_neg h]
      exact ih.cons₂ t'

theorem removeEmptyLoop_sublist (i : Nat) (tags : List Tag) :
    List.Sublist (removeEmptyLoop tags i) tags := by
  induction i generalizing tags with
  | zero => simp [removeEmptyLoop]
  | succ i ih =>
    cases hg : tags.get? i with
    | none => simpa only [removeEmptyLoop, hg] using ih tags
    | some t =>
      by_cases hws : isNullOrWhiteSpaceStr t.value = true
      · simp only [removeEmptyLoop, hg, if_pos hws]
        exact (ih (removeKeyValue tags t)).trans (removeKeyValue_sublist tags t)
      · simpa only [removeEmptyLoop, hg, if_neg hws] using ih tags

theorem RemoveEmptyTags_sublist (tags : List Tag) :
    List.Sublist (RemoveEmptyTags tags) tags :=
  removeEmptyLoop_sublist tags.length tags

theorem drop_of_get (l : List Tag) (i : Nat) (t : Tag)
    (h : l.get? i = some t) : l.drop i = t :: l.drop (i + 1) := by
  induction l generalizing i with
  | nil => simp at h
  | cons x rest ih =>
    cases i with
    | zero =>
      simp only [List.get?] at h
      injection h with h
      simp [h]
    | succ i =>
      simp only [List.get?] at h
      simpa using ih i h

theorem removeKeyValue_drop (l : List Tag) (i : Nat) (t : Tag)
    (h : l.get? i = some t) : (removeKeyValue l t).drop i = l.drop (i + 1) := by
  induction l generalizing i with
  | nil => simp at h
  | cons x rest ih =>
    cases i with
    | zero =>
      simp only [List.get?] at h
      injection h with h
      simp [removeKeyValue, h]
    | succ i =>
      simp only [List.get?] at h
      by_cases hx : x = t
      · simp only [removeKeyValue, if_pos hx, List.drop_succ_cons]
      · simp only [removeKeyValue, if_neg hx, List.drop_succ_cons]
        exact ih i h

theorem removeEmptyLoop_clean (i : Nat) (tags : List Tag)
    (h : ∀ t ∈ tags.drop i, isNullOrWhiteSpaceStr t.value = false) :
    ∀ t ∈ removeEmptyLoop tags i, isNullOrWhiteSpaceStr t.value = false := by
  induction i generalizing tags with
  | zero => simpa [removeEmptyLoop] using h
  | succ i ih =>
    cases hg : tags.get? i with
    | none =>
      have hlen : tags.length ≤ i := List.get?_eq_none.mp hg
      simp only [removeEmptyLoop, hg]
      exact ih tags (by rw [List.drop_eq_nil_of_le hlen]; simp)
    | some t0 =>
      cases hws : isNullOrWhiteSpaceStr t0.value with
      | true =>
        simp only [removeEmptyLoop, hg, if_pos hws]
        refine ih (removeKeyValue tags t0) ?_
        rw [removeKeyValue_drop tags i t0 hg]
        exact h
      | false =>
        have hcond : ¬ (isNullOrWhiteSpaceStr t0.value = true) := by rw [hws]; simp
        simp only [removeEmptyLoop, hg, if_neg hcond]
        refine ih tags ?_
        rw [drop_of_get tags i t0 hg]
        intro t ht
        rcases List.mem_cons.mp ht with ht | ht
        · rw [ht]; exact hws
        · exact h t ht

theorem removeEmptyTags_clean (tags : List Tag) :
    ∀ t ∈ RemoveEmptyTags tags, isNullOrWhiteSpaceStr t.value = false :=
  removeEmptyLoop_clean tags.length tags (by simp)

/-! ## Lemmas about key uniqueness -/

theorem map_key_addOrReplace (tags : List Tag) (t : Tag) :
    (addOrReplace tags t).map (fun x => x.key)
      = if containsKey tags t.key then tags.map (fun x => x.key)
        else tags.map (fun x => x.key) ++ [t.key] := by
  induction tags with
  | nil => simp [addOrReplace, containsKey]
  | cons t' rest ih =>
    by_cases h : t'.key = t.key
    · have hc : containsKey (t' :: rest) t.key = true := by simp [containsKey, h]
      rw [if_pos hc]
      simp [addOrReplace, h]
    · have hc : containsKey (t' :: rest) t.key = containsKey rest t.key := by
        simp [containsKey, h]
      rw [hc]
      simp only [addOrReplace, if_neg h, List.map_cons, ih]
      cases h2 : containsKey rest t.key <;> simp

theorem key_not_mem_of_containsKey_false (tags : List Tag) (k : String)
    (h : containsKey tags k = false) : k ∉ tags.map fun x => x.key := by
  rw [containsKey_eq_false_iff] at h
  simp only [List.mem_map]
  rintro ⟨x, hx, hk⟩
  exact h x hx hk

theorem uniqueKeys_addOrReplace (tags : List Tag) (t : Tag)
    (h : uniqueKeys tags) : uniqueKeys (addOrReplace tags t) := by
  unfold uniqueKeys at *
  rw [map_key_addOrReplace]
  split
  · exact h
  · rename_i hc
    rw [Bool.not_eq_true] at hc
    rw [List.nodup_append]
    exact ⟨h, List.nodup_singleton _,
      by simpa [List.disjoint_singleton] using key_not_mem_of_containsKey_false tags t.key hc⟩

theorem uniqueKeys_addTag (tags : List Tag) (t : Tag)
    (h : uniqueKeys tags) (hc : containsKey tags t.key = false) :
    uniqueKeys (addTag tags t) := by
  unfold uniqueKeys at *
  rw [addTag, List.map_append, List.nodup_append]
  exact ⟨h, by simp,
    by simpa [List.disjoint_singleton] using key_not_mem_of_containsKey_false tags t.key hc⟩

theorem uniqueKeys_setTagRaw (tags : List Tag) (k v : String)
    (h : uniqueKeys tags) : uniqueKeys (setTagRaw tags k v) := by
  unfold setTagRaw
  split
  · exact uniqueKeys_addOrReplace tags ⟨k, v⟩ h
  · rename_i hc
    rw [Bool.not_eq_true] at hc
    exact uniqueKeys_addTag tags ⟨k, v⟩ h hc

theorem uniqueKeys_SetTagByLanguage (options : ConfigurationData) (tags : List Tag)
    (key value language : String) (h : uniqueKeys tags) :
    uniqueKeys (SetTagByLanguage options tags key value language) := by
  by_cases h1 : GetLanguage value language = options.DefaultLanguage
  · cases h2 : containsKey tags key with
    | true =>
      rw [SetTagByLanguage_eq_replace options tags key value language h1 h2]
      exact uniqueKeys_addOrReplace tags ⟨key, value⟩ h
    | false =>
      rw [SetTagByLanguage_eq_addBoth options tags key value language h1 h2]
      exact uniqueKeys_setTagRaw _ _ _ (uniqueKeys_addTag tags ⟨key, value⟩ h h2)
  · rw [SetTagByLanguage_eq_qualified options tags key value language h1]
    exact uniqueKeys_setTagRaw _ _ _ h

/-! ## Lemmas about the language inference -/

theorem hebrewScan_iff (s : List Char) : hebrewScan s = true ↔ anchoredHebrew s := by
  induction s with
  | nil =>
    refine iff_of_false (by simp [hebrewScan]) ?_
    rintro ⟨pre, c, post, heq, -, -⟩
    exact List.cons_ne_nil c post (List.append_eq_nil.mp heq.symm).2
  | cons c rest ih =>
    by_cases hh : isHebrewChar c = true
    · exact iff_of_true (by simp [hebrewScan, hh]) ⟨[], c, rest, rfl, hh, by simp⟩
    · by_cases hl : isLatinLetter c = true
      · refine iff_of_false (by simp [hebrewScan, hh, hl]) ?_
        rintro ⟨pre, d, post, heq, hd, hpre⟩
        cases pre with
        | nil =>
          simp only [List.nil_append, List.cons.injEq] at heq
          exact hh (heq.1 ▸ hd)
        | cons p pre' =>
          simp only [List.cons_append, List.cons.injEq] at heq
          have : isLatinLetter p = false := hpre p (by simp)
          rw [← heq.1] at this
          rw [this] at hl
          exact Bool.false_ne_true hl
      · have hstep : hebrewScan (c :: rest) = hebrewScan rest := by
          simp [hebrewScan, hh, hl]
        rw [hstep, ih]
        constructor
        · rintro ⟨pre, d, post, heq, hd, hpre⟩
          refine ⟨c :: pre, d, post, by simp [heq], hd, ?_⟩
          intro x hx
          rcases List.mem_cons.mp hx with hx | hx
          · rw [hx]
            exact Bool.not_eq_true _ |>.mp hl
          · exact hpre x hx
        · rintro ⟨pre, d, post, heq, hd, hpre⟩
          cases pre with
          | nil =>
            simp only [List.nil_append, List.cons.injEq] at heq
            exact absurd (heq.1 ▸ hd) hh
          | cons p pre' =>
            simp only [List.cons_append, List.cons.injEq] at heq
            exact ⟨pre', d, post, heq.2, hd, fun x hx => hpre x (by simp [hx])⟩

/-! ## Lemmas about key strings -/

theorem ne_of_colon (s t : String) (hs : ':' ∈ s.data) (ht : ':' ∉ t.data) :
    s ≠ t := by
  intro h
  rw [h] at hs
  exact ht hs

theorem data_append (a b : String) : (a ++ b).data = a.data ++ b.data := by
  cases a
  cases b
  rfl

theorem colon_mem_keyLang (key lang : String) (hk : ':' ∈ (key ++ ":").data) :
    ':' ∈ (key ++ ":" ++ lang).data := by
  rw [data_append]
  exact List.mem_append_left _ hk

/-! ## Lemmas about the orchestration flows -/

theorem hasUpsertEvent_fetchEvent_cons (g : GeometryKind) (id : String)
    (rest : List Event) :
    hasUpsertEvent (fetchEvent g id :: rest) = hasUpsertEvent rest := by
  cases g <;> rfl

theorem hasCloseEvent_fetchEvent_cons (g : GeometryKind) (id : String)
    (rest : List Event) :
    hasCloseEvent (fetchEvent g id :: rest) = hasCloseEvent rest := by
  cases g <;> rfl

theorem create_upsert_iff (env : CreateGatewayEnv) (options : ConfigurationData)
    (poi : PointOfInterestExtended) (language : String) :
    hasUpsertEvent (AddPointOfInterest env options poi language).2 = true ↔
      (∃ cid, env.createChangesetResult = .ok cid)
      ∧ (∃ s, env.createElementResult = .ok s ∧ (s.toInt?).isSome = true)
      ∧ env.closeChangesetResult = .ok ()
      ∧ env.preprocessYieldsFeature = true := by
  obtain ⟨o, m, c, p⟩ := env
  cases o with
  | error e => simp [AddPointOfInterest, hasUpsertEvent]
  | ok cid =>
    cases m with
    | error e => simp [AddPointOfInterest, hasUpsertEvent]
    | ok s =>
      cases hI : s.toInt? with
      | none => simp [AddPointOfInterest, hasUpsertEvent, hI]
      | some n =>
        cases c with
        | error e => simp [AddPointOfInterest, hasUpsertEvent, hI]
        | ok u =>
          cases p <;> simp [AddPointOfInterest, hasUpsertEvent, hI]

theorem update_upsert_iff (env : UpdateGatewayEnv) (options : ConfigurationData)
    (poi : PointOfInterestExtended) (language : String) :
    hasUpsertEvent (UpdatePointOfInterest env options poi language).2 = true ↔
      (∃ f, env.getPointOfInterestByIdResult = .ok f)
      ∧ (∃ ts, env.fetchElementResult = .ok ts)
      ∧ (∃ cid, env.createChangesetResult = .ok cid)
      ∧ env.updateElementResult = .ok ()
      ∧ env.closeChangesetResult = .ok ()
      ∧ env.preprocessYieldsFeature = true := by
  obtain ⟨g, f, o, u, c, p⟩ := env
  cases g with
  | error e => simp [UpdatePointOfInterest, hasUpsertEvent, hasUpsertEvent_fetchEvent_cons]
  | ok feature =>
    cases f with
    | error e => simp [UpdatePointOfInterest, hasUpsertEvent, hasUpsertEvent_fetchEvent_cons]
    | ok elementTags =>
      cases o with
      | error e => simp [UpdatePointOfInterest, hasUpsertEvent, hasUpsertEvent_fetchEvent_cons]
      | ok cid =>
        cases u with
        | error e => simp [UpdatePointOfInterest, hasUpsertEvent, hasUpsertEvent_fetchEvent_cons]
        | ok v =>
          cases c with
          | error e => simp [UpdatePointOfInterest, hasUpsertEvent, hasUpsertEvent_fetchEvent_cons]
          | ok w => cases p <;> simp [UpdatePointOfInterest, hasUpsertEvent, hasUpsertEvent_fetchEvent_cons]

/-! ## The claims -/

/-- C1, as corrected.  The claim asserted that a successfully opened
changeset is closed even when the element mutation inside it fails; in the
code there is no cleanup path, so the close runs only after the mutation
(and, in create, the id parse) succeeded.  This theorem proves the
remaining true parts and the corrected behaviour: if opening fails only
the open call happens; if the mutation fails, the overall result is the
mutation failure and no close is attempted; once the mutation succeeds the
close is always attempted. -/
theorem C1_claim (cid e idStr : String) (mutRes : Except Err String)
    (closeRes closeRes' : Except Err Unit) (pre pre' : Bool)
    (options : ConfigurationData) (poi : PointOfInterestExtended) (language : String)
    (updRes : Except Err Unit) (feature : Feature) (elementTags : List Tag) :
    (AddPointOfInterest ⟨.error e, mutRes, closeRes, pre⟩ options poi language
        = (.error e, [.createChangeset createComment]))
    ∧ (AddPointOfInterest ⟨.ok cid, .error e, closeRes, pre⟩ options poi language
        = (.error e, [.createChangeset createComment,
            .createElement cid (buildCreateNode options poi language)]))
    ∧ (hasCloseEvent (AddPointOfInterest ⟨.ok cid, .ok idStr, closeRes, pre⟩
          options poi language).2 = (idStr.toInt?).isSome)
    ∧ (UpdatePointOfInterest ⟨.ok feature, .ok elementTags, .error e, updRes, closeRes', pre'⟩
          options poi language
        = (.error e, [.getPointOfInterestById poi.Id, fetchEvent feature.geometry poi.Id,
            .createChangeset updateComment]))
    ∧ (UpdatePointOfInterest ⟨.ok feature, .ok elementTags, .ok cid, .error e, closeRes', pre'⟩
          options poi language
        = (.error e, [.getPointOfInterestById poi.Id, fetchEvent feature.geometry poi.Id,
            .createChangeset updateComment,
            .updateElement cid (buildUpdateTags options poi language elementTags feature)]))
    ∧ (hasCloseEvent (UpdatePointOfInterest ⟨.ok feature, .ok elementTags, .ok cid, .ok (),
          closeRes', pre'⟩ options poi language).2 = true) := by
  refine ⟨rfl, rfl, ?_, rfl, rfl, ?_⟩
  · cases hI : idStr.toInt? <;> cases closeRes <;> cases pre <;>
      simp [AddPointOfInterest, hI, hasCloseEvent]
  · cases closeRes' <;> cases pre' <;>
      simp [UpdatePointOfInterest, hasCloseEvent, hasCloseEvent_fetchEvent_cons]

/-- C1 counterexample: a create whose changeset opens and whose
`CreateElement` throws never calls `CloseChangeset`, refuting the claimed
guaranteed-cleanup close (the result is still the mutation failure). -/
theorem C1_counterexample :
    (AddPointOfInterest ⟨.ok "7", .error "createElement failed", .ok (), true⟩ ⟨"he"⟩
        ⟨"1", "t", "d", "", "", "", ⟨32, 34⟩⟩ "he").1 = .error "createElement failed"
    ∧ hasCloseEvent (AddPointOfInterest ⟨.ok "7", .error "createElement failed", .ok (), true⟩
        ⟨"he"⟩ ⟨"1", "t", "d", "", "", "", ⟨32, 34⟩⟩ "he").2 = false :=
  ⟨rfl, rfl⟩

/-- C2: in both create and update, the search-index upsert
(`updateNamesData`) is never invoked when the changeset open, the element
mutation or the changeset close fails, and an invoked upsert implies the
close succeeded. -/
theorem C2_claim (envC : CreateGatewayEnv) (envU : UpdateGatewayEnv)
    (options : ConfigurationData) (poi : PointOfInterestExtended) (language : String) :
    (∀ e, envC.createChangesetResult = .error e →
        hasUpsertEvent (AddPointOfInterest envC options poi language).2 = false)
    ∧ (∀ e, envC.createElementResult = .error e →
        hasUpsertEvent (AddPointOfInterest envC options poi language).2 = false)
    ∧ (∀ e, envC.closeChangesetResult = .error e →
        hasUpsertEvent (AddPointOfInterest envC options poi language).2 = false)
    ∧ (hasUpsertEvent (AddPointOfInterest envC options poi language).2 = true →
        envC.closeChangesetResult = .ok ())
    ∧ (∀ e, envU.createChangesetResult = .error e →
        hasUpsertEvent (UpdatePointOfInterest envU options poi language).2 = false)
    ∧ (∀ e, envU.updateElementResult = .error e →
        hasUpsertEvent (UpdatePointOfInterest envU options poi language).2 = false)
    ∧ (∀ e, envU.closeChangesetResult = .error e →
        hasUpsertEvent (UpdatePointOfInterest envU options poi language).2 = false)
    ∧ (hasUpsertEvent (UpdatePointOfInterest envU options poi language).2 = true →
        envU.closeChangesetResult = .ok ()) := by
  refine ⟨?_, ?_, ?_, ?_, ?_, ?_, ?_, ?_⟩
  · intro e he
    cases hb : hasUpsertEvent (AddPointOfInterest envC options poi language).2 with
    | false => rfl
    | true =>
      obtain ⟨⟨cid, hc⟩, -, -, -⟩ := (create_upsert_iff envC options poi language).mp hb
      rw [he] at hc
      exact Except.noConfusion hc
  · intro e he
    cases hb : hasUpsertEvent (AddPointOfInterest envC options poi language).2 with
    | false => rfl
    | true =>
      obtain ⟨-, ⟨s, hs, -⟩, -, -⟩ := (create_upsert_iff envC options poi language).mp hb
      rw [he] at hs
      exact Except.noConfusion hs
  · intro e he
    cases hb : hasUpsertEvent (AddPointOfInterest envC options poi language).2 with
    | false => rfl
    | true =>
      obtain ⟨-, -, hc, -⟩ := (create_upsert_iff envC options poi language).mp hb
      rw [he] at hc
      exact Except.noConfusion hc
  · intro hb
    obtain ⟨-, -, hc, -⟩ := (create_upsert_iff envC options poi language).mp hb
    exact hc
  · intro e he
    cases hb : hasUpsertEvent (UpdatePointOfInterest envU options poi language).2 with
    | false => rfl
    | true =>
      obtain ⟨-, -, ⟨cid, hc⟩, -, -, -⟩ := (update_upsert_iff envU options poi language).mp hb
      rw [he] at hc
      exact Except.noConfusion hc
  · intro e he
    cases hb : hasUpsertEvent (UpdatePointOfInterest envU options poi language).2 with
    | false => rfl
    | true =>
      obtain ⟨-, -, -, hu, -, -⟩ := (update_upsert_iff envU options poi language).mp hb
      rw [he] at hu
      exact Except.noConfusion hu
  · intro e he
    cases hb : hasUpsertEvent (UpdatePointOfInterest envU options poi language).2 with
    | false => rfl
    | true =>
      obtain ⟨-, -, -, -, hc, -⟩ := (update_upsert_iff envU options poi language).mp hb
      rw [he] at hc
      exact Except.noConfusion hc
  · intro hb
    obtain ⟨-, -, -, -, hc, -⟩ := (update_upsert_iff envU options poi language).mp hb
    exact hc

/-- C2 witness: a create whose close fails performs no upsert. -/
theorem C2_witness :
    hasUpsertEvent (AddPointOfInterest ⟨.ok "7", .ok "42", .error "close failed", true⟩ ⟨"he"⟩
        ⟨"1", "t", "d", "", "", "", ⟨32, 34⟩⟩ "he").2 = false :=
  (C2_claim ⟨.ok "7", .ok "42", .error "close failed", true⟩
      ⟨.ok ⟨.point, ""⟩, .ok [], .ok "9", .ok (), .ok (), true⟩ ⟨"he"⟩
      ⟨"1", "t", "d", "", "", "", ⟨32, 34⟩⟩ "he").2.2.1 "close failed" rfl

/-- C3: the code writes the submitted POI's Description into the NAME tag
during update (source line 118), not its Title — evaluated at a concrete
update where the title and description differ. -/
theorem C3_claim :
    getTag (buildUpdateTags ⟨"en"⟩ ⟨"1", "Mount Tabor", "A nice spring", "", "", "", ⟨32, 35⟩⟩
        "en" [] ⟨.point, ""⟩) "name" = some "A nice spring"
    ∧ (⟨"1", "Mount Tabor", "A nice spring", "", "", "", ⟨32, 35⟩⟩
        : PointOfInterestExtended).Title = "Mount Tabor" :=
  ⟨rfl, rfl⟩

/-- C4, as corrected.  The claim asserted that the language-qualified key
is written unconditionally; in the code the default-language branch with
an existing base key returns early, leaving the qualified key untouched.
This theorem characterises every call: the base key carries the value
exactly when the resolved language is the default, and the qualified key
carries the value except in the early-return case, where it is
unchanged. -/
theorem C4_claim (options : ConfigurationData) (tags : List Tag)
    (key value language : String) :
    getTag (SetTagByLanguage options tags key value language) key
      = (if GetLanguage value language = options.DefaultLanguage
          then some value else getTag tags key)
    ∧ getTag (SetTagByLanguage options tags key value language)
        (key ++ ":" ++ GetLanguage value language)
      = (if GetLanguage value language = options.DefaultLanguage
            ∧ containsKey tags key = true
          then getTag tags (key ++ ":" ++ GetLanguage value language)
          else some value) := by
  have hne : key ≠ key ++ ":" ++ GetLanguage value language :=
    key_ne_keyLang key (GetLanguage value language)
  by_cases h1 : GetLanguage value language = options.DefaultLanguage
  · cases h2 : containsKey tags key with
    | true =>
      rw [SetTagByLanguage_eq_replace options tags key value language h1 h2]
      constructor
      · rw [if_pos h1]
        exact getTag_addOrReplace_self tags ⟨key, value⟩
      · rw [if_pos (by exact ⟨h1, rfl⟩)]
        exact getTag_addOrReplace_ne tags ⟨key, value⟩ _ (Ne.symm hne)
    | false =>
      rw [SetTagByLanguage_eq_addBoth options tags key value language h1 h2]
      constructor
      · rw [if_pos h1, getTag_setTagRaw_ne _ _ _ _ hne, addTag,
          getTag_append_of_none tags _ key (getTag_eq_none tags key h2)]
        simp [getTag]
      · rw [if_neg (by simp [h2]), getTag_setTagRaw_self]
  · rw [SetTagByLanguage_eq_qualified options tags key value language h1]
    constructor
    · rw [if_neg h1]
      exact getTag_setTagRaw_ne _ _ _ _ hne
    · rw [if_neg (by simp [h1]), getTag_setTagRaw_self]

/-- C4 counterexample: a Hebrew value under default language "he" written
over an existing base `name` key replaces only the base key and leaves no
`name:he` key, refuting the unconditional qualified-key write. -/
theorem C4_counterexample :
    SetTagByLanguage ⟨"he"⟩ [⟨"name", "old"⟩] "name" "א" "en" = [⟨"name", "א"⟩]
    ∧ GetLanguage "א" "en" = "he"
    ∧ containsKey (SetTagByLanguage ⟨"he"⟩ [⟨"name", "old"⟩] "name" "א" "en")
        ("name" ++ ":" ++ "he") = false :=
  ⟨rfl, rfl, rfl⟩

/-- C5, as corrected.  A create with Hebrew title "הכנרת" under default
language "he" produces both the base `name` key and a `name:he` key (the
base key was absent, so the method falls through to the qualified write);
the claim's "no `name:he` key" fails. -/
theorem C5_claim :
    (buildCreateNode ⟨"he"⟩ ⟨"", "הכנרת", "", "", "", "", ⟨32, 174/5⟩⟩ "he").Tags
      = [⟨"name", "הכנרת"⟩, ⟨"name:he", "הכנרת"⟩] :=
  rfl

/-- C5 counterexample: the created node's tag set does contain a
`name:he` key. -/
theorem C5_counterexample :
    containsKey (buildCreateNode ⟨"he"⟩ ⟨"", "הכנרת", "", "", "", "", ⟨32, 174/5⟩⟩ "he").Tags
      "name:he" = true :=
  rfl

/-- C6: language resolution keeps the requested language for
empty/whitespace values; otherwise it answers "he" exactly when the value
matches the anchored pattern (non-Latin prefix, then a Hebrew-block
character), answers "en" in every other case, and ignores the requested
language. -/
theorem C6_claim (value language : String) :
    (isNullOrWhiteSpaceStr value = true → GetLanguage value language = language)
    ∧ (isNullOrWhiteSpaceStr value = false →
        ((GetLanguage value language = "he" ↔ anchoredHebrew value.data)
         ∧ (¬ anchoredHebrew value.data → GetLanguage value language = "en")
         ∧ ∀ other : String, GetLanguage value other = GetLanguage value language)) := by
  refine ⟨fun h => by simp [GetLanguage, h], fun h => ?_⟩
  cases hs : HasHebrewCharacters value with
  | true =>
    have hG : GetLanguage value language = "he" := by simp [GetLanguage, h, hs]
    refine ⟨iff_of_true hG ((hebrewScan_iff value.data).mp hs), ?_, ?_⟩
    · intro hna
      exact absurd ((hebrewScan_iff value.data).mp hs) hna
    · intro other
      simp [GetLanguage, h, hs]
  | false =>
    have hG : GetLanguage value language = "en" := by simp [GetLanguage, h, hs]
    refine ⟨iff_of_false (by rw [hG]; decide) ?_, fun _ => hG, ?_⟩
    · intro ha
      have h2 : HasHebrewCharacters value = true := (hebrewScan_iff value.data).mpr ha
      rw [h2] at hs
      exact Bool.noConfusion hs
    · intro other
      simp [GetLanguage, h, hs]

/-- C6 witness: a whitespace value keeps the requested language, and a
Hebrew value resolves to "he" whatever the caller requested. -/
theorem C6_witness :
    GetLanguage " " "fr" = "fr" ∧ GetLanguage "א" "en" = "he" :=
  ⟨(C6_claim " " "fr").1 rfl,
   ((C6_claim "א" "en").2 rfl).1.mpr ⟨[], 'א', [], rfl, rfl, by simp⟩⟩

/-- C7, as corrected.  The claim asserted that every write replaces an
existing key; the localized write and the indexer writes do preserve
key-uniqueness, but the icon-vocabulary write is a bare append and can
duplicate an existing key (see the counterexample). -/
theorem C7_claim (tags : List Tag) (t : Tag) (options : ConfigurationData)
    (key value language : String) :
    (uniqueKeys tags → uniqueKeys (addOrReplace tags t))
    ∧ (uniqueKeys tags → uniqueKeys (SetTagByLanguage options tags key value language)) :=
  ⟨uniqueKeys_addOrReplace tags t,
   uniqueKeys_SetTagByLanguage options tags key value language⟩

/-- C7 witness: replacing the value of an existing `image` key keeps the
tag set duplicate-free. -/
theorem C7_witness : uniqueKeys (addOrReplace [⟨"image", "a"⟩] ⟨"image", "b"⟩) :=
  (C7_claim [⟨"image", "a"⟩] ⟨"image", "b"⟩ ⟨"he"⟩ "k" "v" "l").1 (by decide)

/-- C7 counterexample: the icon-vocabulary write appends `natural=peak`
next to an existing `natural=spring` tag, leaving two tags with the same
key. -/
theorem C7_counterexample :
    UpdateTagsByIcon [⟨"natural", "spring"⟩] "icon-peak"
      = [⟨"natural", "spring"⟩, ⟨"natural", "peak"⟩]
    ∧ ¬ uniqueKeys (UpdateTagsByIcon [⟨"natural", "spring"⟩] "icon-peak") :=
  ⟨rfl, by decide⟩

/-- C8: after `RemoveEmptyTags` no tag value is empty or whitespace-only,
and in both flows the element handed to `CreateElement` / `UpdateElement`
carries no such tag (the strip runs after every other tag write). -/
theorem C8_claim :
    (∀ (tags : List Tag), ∀ t ∈ RemoveEmptyTags tags, isNullOrWhiteSpaceStr t.value = false)
    ∧ (∀ (env : CreateGatewayEnv) (options : ConfigurationData)
        (poi : PointOfInterestExtended) (language cid : String) (node : Node),
        Event.createElement cid node ∈ (AddPointOfInterest env options poi language).2 →
        ∀ t ∈ node.Tags, isNullOrWhiteSpaceStr t.value = false)
    ∧ (∀ (env : UpdateGatewayEnv) (options : ConfigurationData)
        (poi : PointOfInterestExtended) (language cid : String) (tl : List Tag),
        Event.updateElement cid tl ∈ (UpdatePointOfInterest env options poi language).2 →
        ∀ t ∈ tl, isNullOrWhiteSpaceStr t.value = false) := by
  refine ⟨removeEmptyTags_clean, ?_, ?_⟩
  · intro env options poi language cid node hmem
    have hnode : node = buildCreateNode options poi language := by
      obtain ⟨o, m, c, p⟩ := env
      cases o with
      | error e => simp [AddPointOfInterest] at hmem
      | ok cid' =>
        cases m with
        | error e =>
          simp [AddPointOfInterest] at hmem
          exact hmem.2
        | ok s =>
          cases hI : s.toInt? with
          | none =>
            simp [AddPointOfInterest, hI] at hmem
            exact hmem.2
          | some n =>
            cases c with
            | error e =>
              simp [AddPointOfInterest, hI] at hmem
              exact hmem.2
            | ok u =>
              cases p <;> simp [AddPointOfInterest, hI] at hmem <;> exact hmem.2
    rw [hnode]
    exact removeEmptyTags_clean (createTagsBeforeStrip options poi language)
  · intro env options poi language cid tl hmem
    obtain ⟨g, f, o, u, c, p⟩ := env
    cases g with
    | error e => simp [UpdatePointOfInterest] at hmem
    | ok feature =>
      have hfetch : ∀ rest : List Event,
          Event.updateElement cid tl ∉ [Event.getPointOfInterestById poi.Id,
            fetchEvent feature.geometry poi.Id] := by
        intro _
        cases feature.geometry <;> simp [fetchEvent]
      cases f with
      | error e =>
        exact absurd (by simpa [UpdatePointOfInterest] using hmem) (by cases feature.geometry <;> simp [UpdatePointOfInterest, fetchEvent])
      | ok elementTags =>
        have htl : tl = buildUpdateTags options poi language elementTags feature := by
          cases o with
          | error e =>
            exfalso
            cases hg : feature.geometry <;>
              simp [UpdatePointOfInterest, fetchEvent, hg] at hmem
          | ok cid' =>
            cases u with
            | error e =>
              cases hg : feature.geometry <;>
                simp [UpdatePointOfInterest, fetchEvent, hg] at hmem <;>
                exact hmem.2
            | ok v =>
              cases c with
              | error e =>
                cases hg : feature.geometry <;>
                  simp [UpdatePointOfInterest, fetchEvent, hg] at hmem <;>
                  exact hmem.2
              | ok w =>
                cases p <;> cases hg : feature.geometry <;>
                  simp [UpdatePointOfInterest, fetchEvent, hg] at hmem <;>
                  exact hmem.2
        rw [htl]
        exact removeEmptyTags_clean (updateTagsBeforeStrip options poi language elementTags feature)

/-- C8 witness: a tag surviving the strip has a non-whitespace value. -/
theorem C8_witness : isNullOrWhiteSpaceStr (Tag.mk "name" "x").value = false :=
  C8_claim.1 [⟨"name", "x"⟩] ⟨"name", "x"⟩ (by decide)

/-- C9: the icon-vocabulary step of update runs exactly when the
submitted icon differs from the icon stored on the fetched feature; in
particular an update with icon "icon-peak" over a stored "icon-peak"
appends no `natural=peak` tag. -/
theorem C9_claim (options : ConfigurationData) (poi : PointOfInterestExtended)
    (language : String) (elementTags : List Tag) (feature : Feature) :
    (poi.Icon = feature.icon →
      buildUpdateTags options poi language elementTags feature
        = RemoveEmptyTags (updateTagsBeforeIcon options poi language elementTags))
    ∧ (poi.Icon ≠ feature.icon →
      buildUpdateTags options poi language elementTags feature
        = RemoveEmptyTags (UpdateTagsByIcon
            (updateTagsBeforeIcon options poi language elementTags) poi.Icon))
    ∧ (poi.Icon = "icon-peak" → feature.icon = "icon-peak" →
      Tag.mk "natural" "peak" ∉ elementTags →
      Tag.mk "natural" "peak" ∉ buildUpdateTags options poi language elementTags feature) := by
  refine ⟨?_, ?_, ?_⟩
  · intro hicons
    simp [buildUpdateTags, updateTagsBeforeStrip, hicons]
  · intro hicons
    simp [buildUpdateTags, updateTagsBeforeStrip, hicons]
  · intro hpi hfi hnotin hmem
    have hicons : poi.Icon = feature.icon := by rw [hpi, hfi]
    have h1 : updateTagsBeforeStrip options poi language elementTags feature
        = updateTagsBeforeIcon options poi language elementTags := by
      simp [updateTagsBeforeStrip, hicons]
    have h2 : Tag.mk "natural" "peak" ∈ updateTagsBeforeIcon options poi language elementTags := by
      have h3 := (RemoveEmptyTags_sublist
        (updateTagsBeforeStrip options poi language elementTags feature)).subset hmem
      rwa [h1] at h3
    unfold updateTagsBeforeIcon at h2
    rcases mem_addOrReplace _ _ _ h2 with he | h3
    · have hkey : ("natural" : String) = FeatureAttributes.WEBSITE := congrArg Tag.key he
      exact absurd hkey (by decide)
    rcases mem_addOrReplace _ _ _ h3 with he | h4
    · have hkey : ("natural" : String) = FeatureAttributes.IMAGE_URL := congrArg Tag.key he
      exact absurd hkey (by decide)
    rcases mem_SetTagByLanguage _ _ _ _ _ _ h4 with h5 | hk | hk
    · rcases mem_SetTagByLanguage _ _ _ _ _ _ h5 with h6 | hk | hk
      · exact hnotin h6
      · exact absurd hk (by decide)
      · exact (ne_of_colon _ _
          (colon_mem_keyLang FeatureAttributes.NAME _ (by decide)) (by decide)) hk.symm
    · exact absurd hk (by decide)
    · exact (ne_of_colon _ _
        (colon_mem_keyLang FeatureAttributes.DESCRIPTION _ (by decide)) (by decide)) hk.symm

/-- C9 witness: an unchanged "icon-peak" update of an element without a
`natural=peak` tag yields an element still without one. -/
theorem C9_witness :
    Tag.mk "natural" "peak" ∉ buildUpdateTags ⟨"he"⟩
      ⟨"1", "t", "d", "", "", "icon-peak", ⟨32, 34⟩⟩ "he" [] ⟨.point, "icon-peak"⟩ :=
  (C9_claim ⟨"he"⟩ ⟨"1", "t", "d", "", "", "icon-peak", ⟨32, 34⟩⟩ "he" []
      ⟨.point, "icon-peak"⟩).2.2 rfl rfl (by decide)

/-- C10: the icon-vocabulary mapping only appends — the input tag set is
an unchanged prefix of the output, so every pre-existing tag (including a
category tag derived from a previous icon) survives with its value. -/
theorem C10_claim (tags : List Tag) (icon : String) :
    ∃ appended, UpdateTagsByIcon tags icon = tags ++ appended := by
  unfold UpdateTagsByIcon
  split_ifs <;> first
    | exact ⟨_, rfl⟩
    | exact ⟨[], by simp⟩

end OsmPoi
